import Mathlib

/-!
Verification of the Newton constraint-projection engine (`newton_core`).

The Rust sources are shallowly embedded: IEEE-754 doubles are modelled as
real numbers (`ℝ`), `Vec<f64>` as `List ℝ`, and every embedded function
mirrors the control flow of the Rust function it is named after.
Wall-clock statistics (`elapsed_us`, taken from a monotonic clock in the
source) are modelled as `0`; they do not influence any other output.
Rust `assert!` preconditions (dimension matches, convexity routing) are
modelled as hypotheses on the theorems rather than as runtime failures.
NaN handling in `lexicographic_cmp` is unreachable in the real-number
model, since `ℝ` has no NaN; the embedded comparison is the total order.
-/

namespace Newton

noncomputable section

open scoped Classical

/-! ### constants.rs -/

/-- `EPSILON` from constants.rs. -/
def EPSILON : ℝ := 1e-10

/-- `TOLERANCE` from constants.rs. -/
def TOLERANCE : ℝ := 1e-8

/-- `MAX_ITERATIONS` from constants.rs. -/
def MAX_ITERATIONS : ℕ := 100

/-- `MAX_CANDIDATES` from constants.rs. -/
def MAX_CANDIDATES : ℕ := 24

/-- `SEARCH_RADIUS` from constants.rs. -/
def SEARCH_RADIUS : ℝ := 100

/-- `SHELL_RADII` from constants.rs. -/
def SHELL_RADII : List ℝ := [1, 2, 4, 8, SEARCH_RADIUS]

/-- `SHELL_ANGULAR_SAMPLES` from constants.rs. -/
def SHELL_ANGULAR_SAMPLES : ℕ := 8

/-- `safe_divide` from constants.rs: `a / (b + EPSILON)`. -/
def safe_divide (a b : ℝ) : ℝ := a / (b + EPSILON)

/-- `is_near_zero` from constants.rs: `x.abs() < EPSILON`. -/
def is_near_zero (x : ℝ) : Bool := decide (|x| < EPSILON)

/-! ### linalg.rs: the `Vector` type -/

/-- Rust `Vector { data: Vec<f64> }`, modelled as a list of reals. -/
abbrev Vector := List ℝ

/-- `Vector::zeros`. -/
def zeros (dim : ℕ) : Vector := List.replicate dim 0

/-- `Add for &Vector` (dimensions must match, asserted in the source). -/
def vadd (a b : Vector) : Vector := List.zipWith (fun x y => x + y) a b

/-- `Sub for &Vector` (dimensions must match, asserted in the source). -/
def vsub (a b : Vector) : Vector := List.zipWith (fun x y => x - y) a b

/-- `Mul<f64> for &Vector`: componentwise `x * rhs`. -/
def smul (v : Vector) (c : ℝ) : Vector := v.map (fun x => x * c)

/-- `Div<f64> for &Vector`: componentwise `x / rhs`. -/
def vdiv (v : Vector) (c : ℝ) : Vector := v.map (fun x => x / c)

/-- `Vector::norm_squared`: sum of componentwise squares. -/
def norm_squared (v : Vector) : ℝ := (v.map (fun x => x * x)).sum

/-- `Vector::norm`: `norm_squared.sqrt()`. -/
def norm (v : Vector) : ℝ := Real.sqrt (norm_squared v)

/-- `Vector::dot` (dimensions must match, asserted in the source). -/
def dot (a b : Vector) : ℝ := (List.zipWith (fun x y => x * y) a b).sum

/-- `Vector::normalize`: zero vector when the norm is below `EPSILON`. -/
def normalize (v : Vector) : Vector :=
  if norm v < EPSILON then zeros v.length else vdiv v (norm v)

/-- `Vector::distance`. -/
def distance (a b : Vector) : ℝ := norm (vsub a b)

/-- `f64::clamp(lo, hi)` on one component. -/
def clampScalar (x lo hi : ℝ) : ℝ := if x < lo then lo else if hi < x then hi else x

/-- `Vector::lexicographic_cmp`.  The source iterates the zipped components
(`<` gives `Less`, `>` gives `Greater`) and then compares dimensions; the
NaN branch of the source is unreachable over `ℝ`. -/
def lexicographic_cmp : Vector → Vector → Ordering
  | [], [] => .eq
  | [], _ :: _ => .lt
  | _ :: _, [] => .gt
  | a :: as', b :: bs' =>
    if a < b then .lt else if b < a then .gt else lexicographic_cmp as' bs'

/-- `Vector::approx_eq`: dimensions equal and distance below `TOLERANCE`. -/
def approx_eq (a b : Vector) : Bool :=
  decide (a.length = b.length) && decide (distance a b < TOLERANCE)

/-! ### primitives.rs: `Bounds`, `FGState`, `Delta` -/

/-- `Bounds` from primitives.rs (an axis-aligned box `min ≤ x ≤ max`). -/
structure Bounds where
  min : Vector
  max : Vector

/-- `Bounds::contains`: inclusive within an `EPSILON` slack per dimension. -/
def Bounds.contains (b : Bounds) (p : Vector) : Bool :=
  (List.range b.min.length).all fun i =>
    !(decide (p.getD i 0 < b.min.getD i 0 - EPSILON) ||
      decide (p.getD i 0 > b.max.getD i 0 + EPSILON))

/-- `Bounds::expand`: grow by a margin in every direction. -/
def Bounds.expand (b : Bounds) (margin : ℝ) : Bounds :=
  { min := vsub b.min (List.replicate b.min.length margin)
    max := vadd b.max (List.replicate b.min.length margin) }

/-- `FGState` from primitives.rs. -/
inductive FGState where
  | Valid : FGState
  | Slack (margin : ℝ) : FGState
  | Exact : FGState
  | Finfr (excess : ℝ) : FGState

/-- `FGState::from_violation`: thresholds on `fg = safe_divide violation effort`. -/
def FGState.from_violation (violation effort : ℝ) : FGState :=
  let fg := safe_divide violation effort
  if fg < EPSILON then .Valid
  else if fg < 1 - EPSILON then .Slack (1 - fg)
  else if fg < 1 + EPSILON then .Exact
  else .Finfr (fg - 1)

/-- `FGState::is_valid`: everything except `Finfr`. -/
def FGState.is_valid : FGState → Bool
  | .Finfr _ => false
  | _ => true

/-- `Delta` from primitives.rs.  The optional source tag and the timestamp
are metadata that never influence the geometry and are not modelled. -/
structure Delta where
  vector : Vector

/-- `Delta::magnitude`. -/
def Delta.magnitude (d : Delta) : ℝ := norm d.vector

/-! ### intent.rs: `IntentVector` -/

/-- `IntentVector` from intent.rs (the `source` metadata is not modelled). -/
structure IntentVector where
  direction : Vector
  magnitude : ℝ
  weights : Vector

/-- `IntentVector::from_delta`. -/
def IntentVector.from_delta (d : Delta) : IntentVector :=
  let magnitude := d.magnitude
  let direction := if magnitude > EPSILON then normalize d.vector
                   else zeros d.vector.length
  { direction := direction, magnitude := magnitude
    weights := List.replicate d.vector.length 1 }

/-- `IntentVector::from_vector`. -/
def IntentVector.from_vector (v : Vector) : IntentVector :=
  let magnitude := norm v
  let direction := if magnitude > EPSILON then normalize v else zeros v.length
  { direction := direction, magnitude := magnitude
    weights := List.replicate v.length 1 }

/-- `IntentVector::with_weights`. -/
def IntentVector.with_weights (v : Vector) (w : Vector) : IntentVector :=
  { IntentVector.from_vector v with weights := w }

/-- `IntentVector::vector`: `direction * magnitude`. -/
def IntentVector.vector (i : IntentVector) : Vector := smul i.direction i.magnitude

/-- `IntentVector::preserved` from intent.rs. -/
def IntentVector.preserved (i : IntentVector) (original result : Vector) : ℝ :=
  if i.magnitude < EPSILON then 1
  else
    let actual_change := vsub result original
    let actual_magnitude := norm actual_change
    if actual_magnitude < EPSILON then 0
    else
      let alignment := dot i.direction (normalize actual_change)
      let magnitude_ratio := min (actual_magnitude / i.magnitude) 1
      max (alignment * magnitude_ratio) 0

/-! ### constraints: the closed sum of the four `Constraint` implementations -/

/-- The four `Constraint` implementations as a closed sum.
`boxBounds` carries the test-only `reversed` flag of `BoxBounds`;
`linear` is `LinearConstraint` (its cached `normal_norm_sq` is recomputed
as `norm_squared normal`, which is the value cached at construction);
`collision` is `CollisionConstraint`; `discrete` is `DiscreteConstraint`. -/
inductive Constraint where
  | boxBounds (min max : Vector) (reversed : Bool) : Constraint
  | linear (normal : Vector) (bound : ℝ) : Constraint
  | collision (obstacle : Bounds) (separation : ℝ) : Constraint
  | discrete (allowed : List Vector) : Constraint

/-- `CollisionConstraint::effective`: the obstacle expanded by the
separation when it is positive (the cached `effective_bounds`). -/
def collisionEffective (obstacle : Bounds) (separation : ℝ) : Bounds :=
  if separation > 0 then obstacle.expand separation else obstacle

/-- `BoxBounds::project` from box_bounds.rs: componentwise clamp, iterating
the dimensions forwards, or backwards when `reversed` is set.  Each step
reads and writes `result[i]`, exactly as the source loop does. -/
def boxProject (mn mx : Vector) (reversed : Bool) (p : Vector) : Vector :=
  (if reversed then (List.range mn.length).reverse else List.range mn.length).foldl
    (fun r i => r.set i (clampScalar (r.getD i 0) (mn.getD i 0) (mx.getD i 0))) p

/-- `DiscreteConstraint::nearest`: the first element of minimal distance
(`Iterator::min_by` keeps the earliest minimum).  The constructor asserts
non-emptiness; the `[]` case is unreachable. -/
def discreteNearest (allowed : List Vector) (p : Vector) : Vector :=
  match allowed with
  | [] => p
  | v :: vs => vs.foldl (fun best w => if distance p w < distance p best then w else best) v

/-- `Constraint::satisfied` for each variant (box_bounds.rs, linear.rs,
collision.rs, discrete.rs). -/
def Constraint.satisfied : Constraint → Vector → Bool
  | .boxBounds mn mx _, p =>
    (List.range mn.length).all fun i =>
      !(decide (p.getD i 0 < mn.getD i 0 - EPSILON) ||
        decide (p.getD i 0 > mx.getD i 0 + EPSILON))
  | .linear normal bound, p =>
    if is_near_zero (norm_squared normal) then decide (bound ≥ -EPSILON)
    else decide (dot normal p - bound ≤ EPSILON)
  | .collision obstacle separation, p =>
    !(collisionEffective obstacle separation).contains p
  | .discrete allowed, p => allowed.any fun v => approx_eq p v

/-- The candidate face projections scanned by `CollisionConstraint::project`:
for each dimension, the point moved to the min face minus the margin and to
the max face plus the margin, in the source's loop order. -/
def collisionFaces (eff : Bounds) (margin : ℝ) (p : Vector) : List Vector :=
  (List.range eff.min.length).foldr
    (fun i acc =>
      p.set i (eff.min.getD i 0 - margin) :: p.set i (eff.max.getD i 0 + margin) :: acc) []

/-- The running-best fold of `CollisionConstraint::project`.  The source
starts from `best_dist = f64::INFINITY`; `none` models the not-yet-updated
state (the first candidate always wins against infinity). -/
def collisionBest (p : Vector) (faces : List Vector) : Vector :=
  (faces.foldl
    (fun best cand =>
      match best.2 with
      | none => (cand, some (distance p cand))
      | some bd => if distance p cand < bd then (cand, some (distance p cand)) else best)
    ((p, none) : Vector × Option ℝ)).1

/-- `Constraint::project` for each variant. -/
def Constraint.project : Constraint → Vector → Vector
  | .boxBounds mn mx reversed, p => boxProject mn mx reversed p
  | .linear normal bound, p =>
    if is_near_zero (norm_squared normal) then p
    else
      let slack := dot normal p - bound
      if slack ≤ EPSILON then p
      else vsub p (smul normal (slack / norm_squared normal))
  | .collision obstacle separation, p =>
    if Constraint.satisfied (.collision obstacle separation) p then p
    else
      let eff := collisionEffective obstacle separation
      collisionBest p (collisionFaces eff (EPSILON * 100) p)
  | .discrete allowed, p => discreteNearest allowed p

/-- `Constraint::is_convex`: box and halfspace are convex, collision and
discrete are not. -/
def Constraint.is_convex : Constraint → Bool
  | .boxBounds _ _ _ => true
  | .linear _ _ => true
  | .collision _ _ => false
  | .discrete _ => false

/-- `all_satisfied` from constraints/mod.rs. -/
def all_satisfied (cs : List Constraint) (p : Vector) : Bool :=
  cs.all fun c => c.satisfied p

/-- `all_convex` from constraints/mod.rs. -/
def all_convex (cs : List Constraint) : Bool :=
  cs.all fun c => c.is_convex

/-! ### projection/halfspace.rs -/

/-- `project_halfspace` from halfspace.rs. -/
def project_halfspace (point normal : Vector) (bound : ℝ) : Vector :=
  if is_near_zero (norm_squared normal) then point
  else
    let slack := dot normal point - bound
    if slack ≤ EPSILON then point
    else vsub point (smul normal (slack / norm_squared normal))

/-! ### projection/dykstra.rs -/

/-- `DykstraResult` from dykstra.rs. -/
structure DykstraResult where
  point : Vector
  iterations : ℕ
  converged : Bool
  final_change : ℝ

/-- One cycle of Dykstra's sweep (`for i in 0..m` inside the iteration
loop): `z = x + y_i`, `x = project(z)`, `y_i = z - x`. -/
def dykstraSweep : List Constraint → Vector → List Vector → Vector × List Vector
  | [], x, _ => (x, [])
  | c :: cs, x, y :: ys =>
    let z := vadd x y
    let xNew := c.project z
    let rest := dykstraSweep cs xNew ys
    (rest.1, vsub z xNew :: rest.2)
  | _ :: _, x, [] => (x, [])

/-- The main iteration loop of `project_convex_internal`, with the
remaining iteration budget as fuel.  Each pass counts one iteration, runs
a sweep, and stops as soon as the change drops below `TOLERANCE`; fuel
exhaustion returns the current iterate with `converged = false`. -/
def dykstraLoop (cs : List Constraint) :
    ℕ → Vector → List Vector → ℕ → ℝ → DykstraResult
  | 0, x, _, iters, fc => ⟨x, iters, false, fc⟩
  | fuel + 1, x, y, iters, _ =>
    let swept := dykstraSweep cs x y
    let change := distance swept.1 x
    if change < TOLERANCE then ⟨swept.1, iters + 1, true, change⟩
    else dykstraLoop cs fuel swept.1 swept.2 (iters + 1) change

/-- `project_convex_internal` from dykstra.rs.  The source initialises
`final_change = f64::INFINITY`; since `MAX_ITERATIONS = 100 ≥ 1` that value
is always overwritten before it can be returned, and the loop is entered
with an arbitrary placeholder (`0`). -/
def project_convex_internal (point : Vector) (cs : List Constraint) : DykstraResult :=
  if cs.isEmpty then ⟨point, 0, true, 0⟩
  else if all_satisfied cs point then ⟨point, 0, true, 0⟩
  else dykstraLoop cs MAX_ITERATIONS point
    (List.replicate cs.length (zeros point.length)) 0 0

/-- `project_convex` from dykstra.rs. -/
def project_convex (point : Vector) (cs : List Constraint) : Vector :=
  (project_convex_internal point cs).point

/-- The iteration loop of `project_convex_with_history`, which records each
iterate and has no already-feasible early exit. -/
def historyLoop (cs : List Constraint) :
    ℕ → Vector → List Vector → ℕ → List Vector → Vector × ℕ × List Vector
  | 0, x, _, iters, hist => (x, iters, hist)
  | fuel + 1, x, y, iters, hist =>
    let swept := dykstraSweep cs x y
    let hist' := hist ++ [swept.1]
    let change := distance swept.1 x
    if change < TOLERANCE then (swept.1, iters + 1, hist')
    else historyLoop cs fuel swept.1 swept.2 (iters + 1) hist'

/-- `project_convex_with_history` from dykstra.rs. -/
def project_convex_with_history (point : Vector) (cs : List Constraint) :
    Vector × ℕ × List Vector :=
  if cs.isEmpty then (point, 0, [point])
  else historyLoop cs MAX_ITERATIONS point
    (List.replicate cs.length (zeros point.length)) 0 [point]

/-- One sweep as a transformer of the `(x, y)` state. -/
def sweepFun (cs : List Constraint) (s : Vector × List Vector) : Vector × List Vector :=
  dykstraSweep cs s.1 s.2

/-- The pure iterate sequence of the sweep: `dykstraIter cs p n` is the
state `(x, y)` after `n` full sweeps starting from `x = p`, `y_i = 0`. -/
def dykstraIter (cs : List Constraint) (p : Vector) (n : ℕ) : Vector × List Vector :=
  (sweepFun cs)^[n] (p, List.replicate cs.length (zeros p.length))

/-! ### candidates.rs -/

/-- `generate_shell_1d`: the two points `center ∓ radius`. -/
def generate_shell_1d (center : Vector) (radius : ℝ) : List Vector :=
  [[center.getD 0 0 - radius], [center.getD 0 0 + radius]]

/-- `generate_shell_2d`: `SHELL_ANGULAR_SAMPLES` points on the circle. -/
def generate_shell_2d (center : Vector) (radius : ℝ) : List Vector :=
  (List.range SHELL_ANGULAR_SAMPLES).map fun i =>
    let angle := 2 * Real.pi * (i : ℝ) / (SHELL_ANGULAR_SAMPLES : ℝ)
    [center.getD 0 0 + radius * Real.cos angle,
     center.getD 1 0 + radius * Real.sin angle]

/-- `generate_shell_nd`: `2n` axial points followed by the four diagonal
points of every 2-plane, in the source's loop order. -/
def generate_shell_nd (center : Vector) (radius : ℝ) (dim : ℕ) : List Vector :=
  let axial := (List.range dim).foldr
    (fun d acc =>
      center.set d (center.getD d 0 + radius) ::
      center.set d (center.getD d 0 - radius) :: acc) []
  let diag_radius := radius / Real.sqrt 2
  let diagonal :=
    if 2 ≤ dim then
      (List.range dim).foldr (fun d1 acc1 =>
        (((List.range dim).drop (d1 + 1)).foldr (fun d2 acc2 =>
          (([1, -1] : List ℝ).foldr (fun sign1 acc3 =>
            (([1, -1] : List ℝ).foldr (fun sign2 acc4 =>
              (let q := center.set d1 (center.getD d1 0 + sign1 * diag_radius);
               q.set d2 (q.getD d2 0 + sign2 * diag_radius)) :: acc4) acc3)) acc2)) acc1)) []
    else []
  axial ++ diagonal

/-- `generate_shell_points`: dispatch on the dimension. -/
def generate_shell_points (center : Vector) (radius : ℝ) (dim : ℕ) : List Vector :=
  match dim with
  | 1 => generate_shell_1d center radius
  | 2 => generate_shell_2d center radius
  | _ => generate_shell_nd center radius dim

/-- The `bounds.map_or(true, |b| b.contains(p))` filter of `local_search`. -/
def boundsFilter : Option Bounds → Vector → Bool
  | none, _ => true
  | some b, p => b.contains p

/-- `sort_by(lexicographic_cmp)`: a stable sort by the lexicographic
comparator (Rust's `sort_by` is stable, as is `List.mergeSort`). -/
def sortLex (l : List Vector) : List Vector :=
  l.mergeSort fun a b => lexicographic_cmp a b != Ordering.gt

/-- The shell loop of `local_search`: per shell, filter to the bounds, sort
lexicographically, then emit until the quota is reached.  Appending
`valid.take (quota - acc.length)` and stopping once the quota is reached is
the source's push-and-early-return loop. -/
def localSearchShells (center : Vector) (bounds : Option Bounds) (quota : ℕ) :
    List ℝ → List Vector → List Vector
  | [], acc => acc
  | r :: rs, acc =>
    let valid := sortLex ((generate_shell_points center r center.length).filter
      (boundsFilter bounds))
    let extended := acc ++ valid.take (quota - acc.length)
    if quota ≤ extended.length then extended
    else localSearchShells center bounds quota rs extended

/-- `local_search` from candidates.rs. -/
def local_search (center : Vector) (bounds : Option Bounds) (existing_candidates : ℕ) :
    List Vector :=
  let remaining_quota := MAX_CANDIDATES - existing_candidates
  if remaining_quota = 0 then []
  else localSearchShells center bounds remaining_quota SHELL_RADII []

/-- The comparator of `filter_and_rank`: distance to the intent, with the
`Equal` branch falling back to lexicographic order.  The source's NaN
branch (`partial_cmp = None`, yielding `Equal`) is unreachable over `ℝ`
and is not modelled. -/
def distCmpTo (intent a b : Vector) : Ordering :=
  if distance intent a < distance intent b then .lt
  else if distance intent b < distance intent a then .gt
  else lexicographic_cmp a b

/-- `filter_and_rank` from candidates.rs: keep the candidates satisfying
every constraint, sorted by distance to the intended state with a
lexicographic tiebreak. -/
def filter_and_rank (candidates : List Vector) (cs : List Constraint)
    (intent : Vector) : List Vector :=
  let valid := candidates.filter fun c => cs.all fun con => con.satisfied c
  valid.mergeSort fun a b => distCmpTo intent a b != Ordering.gt

/-! ### rank.rs -/

/-- `RankingCriteria` from rank.rs. -/
structure RankingCriteria where
  intent_weight : ℝ
  margin_weight : ℝ
  stability_weight : ℝ

/-- `RankingCriteria::default()`. -/
def RankingCriteria.default : RankingCriteria :=
  { intent_weight := 1.0, margin_weight := 0.5, stability_weight := 0.3 }

/-- `ScoreComponents` from rank.rs. -/
structure ScoreComponents where
  intent_distance : ℝ
  margin : ℝ
  stability_distance : ℝ

/-- `ScoredCandidate` from rank.rs. -/
structure ScoredCandidate where
  point : Vector
  score : ℝ
  components : ScoreComponents

/-- The comparator of `rank_candidates`: score first; the `Equal` and the
unreachable NaN branch both fall back to lexicographic order on the point. -/
def scoredCmp (a b : ScoredCandidate) : Ordering :=
  if a.score < b.score then .lt
  else if b.score < a.score then .gt
  else lexicographic_cmp a.point b.point

/-- `rank_candidates` from rank.rs.  The `margin` component is hard-coded
to `0.0` in the source ("Would need constraints to compute") and the score
sums only the intent and stability terms. -/
def rank_candidates (candidates : List Vector) (intent : IntentVector)
    (original : Vector) (criteria : RankingCriteria) : List ScoredCandidate :=
  let intended_position := vadd original intent.vector
  let scored := candidates.map fun point =>
    let components : ScoreComponents :=
      { intent_distance := distance point intended_position
        margin := 0
        stability_distance := distance point original }
    let score := criteria.intent_weight * components.intent_distance
      + criteria.stability_weight * components.stability_distance
    ({ point := point, score := score, components := components } : ScoredCandidate)
  scored.mergeSort fun a b => scoredCmp a b != Ordering.gt

/-! ### aida.rs -/

/-- `SuggestionQuality` from aida.rs. -/
inductive SuggestionQuality where
  | Exact : SuggestionQuality
  | Near : SuggestionQuality
  | Relaxed : SuggestionQuality
deriving DecidableEq

/-- `Suggestion` from aida.rs. -/
structure Suggestion where
  state : Vector
  fg_state : FGState
  intent_preserved : ℝ
  explanation : String

/-- `SearchStats` from aida.rs.  `elapsed_us` is read from a monotonic
clock in the source; the model pins it to `0` (no claim concerns it). -/
structure SearchStats where
  candidates_generated : ℕ
  candidates_verified : ℕ
  iterations_used : ℕ
  elapsed_us : ℕ

/-- `AidAResponse` from aida.rs. -/
structure AidAResponse where
  suggestions : List Suggestion
  quality : SuggestionQuality
  search_stats : SearchStats

/-- `suggest_convex` from aida.rs.  The numeric interpolation inside the
source's `format!` explanation string is not modelled. -/
def suggest_convex (current intended : Vector) (intent : IntentVector)
    (cs : List Constraint) (stats : SearchStats) : AidAResponse :=
  let projected := project_convex intended cs
  let violation := distance intended projected
  let effort := intent.magnitude
  let fg_state := FGState.from_violation violation effort
  let intent_preserved := intent.preserved current projected
  let explanation :=
    if approx_eq projected intended then "Position adjusted to satisfy constraints."
    else "Moved to nearest valid position."
  let statsOut : SearchStats := { stats with candidates_verified := 1 }
  let quality :=
    if fg_state.is_valid && decide (intent_preserved > 0.9) then SuggestionQuality.Exact
    else if intent_preserved > 0.5 then SuggestionQuality.Near
    else SuggestionQuality.Relaxed
  ⟨[⟨projected, fg_state, intent_preserved, explanation⟩], quality, statsOut⟩

/-- `suggest_nonconvex` from aida.rs: convex-relaxation center, radial
candidates, filter-and-rank, and the convex-relaxation fallback when no
candidate survives. -/
def suggest_nonconvex (current intended : Vector) (intent : IntentVector)
    (cs : List Constraint) (stats : SearchStats) : AidAResponse :=
  let convex_constraints := cs.filter fun c => c.is_convex
  let center :=
    if convex_constraints.isEmpty then intended
    else project_convex intended convex_constraints
  let candidates := center :: local_search center none 1
  let stats1 : SearchStats := { stats with candidates_generated := candidates.length }
  let valid_candidates := filter_and_rank candidates cs intended
  let stats2 : SearchStats := { stats1 with candidates_verified := valid_candidates.length }
  if valid_candidates.isEmpty then
    let violation := distance intended center
    let fg_state := FGState.from_violation violation intent.magnitude
    let intent_preserved := intent.preserved current center
    ⟨[⟨center, fg_state, intent_preserved,
       "No exact match found. Showing convex relaxation."⟩],
     SuggestionQuality.Relaxed, stats2⟩
  else
    let suggestions := (valid_candidates.take 5).map fun state =>
      let violation := distance intended state
      let fg_state := FGState.from_violation violation intent.magnitude
      let intent_preserved := intent.preserved current state
      (⟨state, fg_state, intent_preserved, "Valid position."⟩ : Suggestion)
    let best_preserved : ℝ := (suggestions.head?.map fun s => s.intent_preserved).getD 0
    let quality :=
      if best_preserved > 0.9 then SuggestionQuality.Exact
      else if best_preserved > 0.5 then SuggestionQuality.Near
      else SuggestionQuality.Relaxed
    ⟨suggestions, quality, stats2⟩

/-- `suggest` from aida.rs: the Aid-a entry point. -/
def suggest (current : Vector) (delta : Delta) (cs : List Constraint) : AidAResponse :=
  let stats : SearchStats := ⟨0, 0, 0, 0⟩
  let intended := vadd current delta.vector
  let intent := IntentVector.from_delta delta
  if cs.isEmpty || all_satisfied cs intended then
    ⟨[⟨intended, FGState.Valid, 1, "Intended position is valid."⟩],
     SuggestionQuality.Exact, stats⟩
  else if all_convex cs then suggest_convex current intended intent cs stats
  else suggest_nonconvex current intended intent cs stats

/-- `suggest_weighted` from aida.rs: the source computes an intended state
and a weighted intent, then discards both and delegates to the unweighted
`suggest`; the weights argument never reaches the result. -/
def suggest_weighted (current : Vector) (delta : Delta) (cs : List Constraint)
    (weights : Vector) : AidAResponse :=
  suggest current delta cs

/-! ### concrete instances used by individual claims -/

/-- C1 failing input: the obstacle `[-1000, 1000]` (one dimension). -/
def c1_obstacle : Bounds := ⟨[-1000], [1000]⟩

/-- C1 failing input: a collision constraint with zero separation. -/
def c1_constraint : Constraint := .collision c1_obstacle 0

/-- C1 failing input: current state `[0]`. -/
def c1_current : Vector := [0]

/-- C1 failing input: delta `[1]`. -/
def c1_delta : Delta := ⟨[1]⟩

/-- C7 counterexample: a degenerate halfspace with a tiny negative bound. -/
def c7_constraint : Constraint := .linear [0] (-(5e-11))

/-- C10 counterexample: the box `[0, 1]` in one dimension. -/
def c10_box : Constraint := .boxBounds [0] [1] false

/-- C10 counterexample: a point within the feasibility slack but outside
the box. -/
def c10_point : Vector := [-(5e-11)]

/-! ## Helper lemmas -/

theorem norm_squared_nonneg (v : Vector) : 0 ≤ norm_squared v := by
  refine List.sum_nonneg ?_
  intro x hx
  rw [List.mem_map] at hx
  obtain ⟨y, _, rfl⟩ := hx
  exact mul_self_nonneg y

theorem EPSILON_pos : (0 : ℝ) < EPSILON := by norm_num [EPSILON]

theorem TOLERANCE_pos : (0 : ℝ) < TOLERANCE := by norm_num [TOLERANCE]

/-! ## C3: halfspace projection -/

/-- C3: for every point `p` and normal `a` with `‖a‖² ≥ ε`, halfspace
projection returns `p` unchanged when the slack `s = a·p − b` is at most
`ε`, and otherwise returns `p − (s/‖a‖²)·a`; when `‖a‖² < ε` the input
point is returned unchanged. -/
theorem project_halfspace_spec (p a : Vector) (b : ℝ) (hdim : p.length = a.length) :
    (norm_squared a < EPSILON → project_halfspace p a b = p) ∧
    (EPSILON ≤ norm_squared a →
      (dot a p - b ≤ EPSILON → project_halfspace p a b = p) ∧
      (EPSILON < dot a p - b →
        project_halfspace p a b = vsub p (smul a ((dot a p - b) / norm_squared a)))) := by
  have habs : |norm_squared a| = norm_squared a := abs_of_nonneg (norm_squared_nonneg a)
  unfold project_halfspace is_near_zero
  simp only [habs, decide_eq_true_eq]
  constructor
  · intro h
    rw [if_pos h]
  · intro h
    rw [if_neg (not_lt.mpr h)]
    constructor
    · intro hs
      rw [if_pos hs]
    · intro hs
      rw [if_neg (not_le.mpr hs)]

/-- C3 witness: the projection formula evaluated at `p = (10, 3)`,
`a = (1, 0)`, `b = 5`. -/
theorem project_halfspace_spec_witness :
    (norm_squared [(1 : ℝ), 0] < EPSILON →
      project_halfspace [(10 : ℝ), 3] [(1 : ℝ), 0] 5 = [(10 : ℝ), 3]) ∧
    (EPSILON ≤ norm_squared [(1 : ℝ), 0] →
      (dot [(1 : ℝ), 0] [(10 : ℝ), 3] - 5 ≤ EPSILON →
        project_halfspace [(10 : ℝ), 3] [(1 : ℝ), 0] 5 = [(10 : ℝ), 3]) ∧
      (EPSILON < dot [(1 : ℝ), 0] [(10 : ℝ), 3] - 5 →
        project_halfspace [(10 : ℝ), 3] [(1 : ℝ), 0] 5 =
          vsub [(10 : ℝ), 3] (smul [(1 : ℝ), 0]
            ((dot [(1 : ℝ), 0] [(10 : ℝ), 3] - 5) / norm_squared [(1 : ℝ), 0])))) :=
  project_halfspace_spec [(10 : ℝ), 3] [(1 : ℝ), 0] 5 (by simp)

/-! ## C4: FGState::from_violation thresholds -/

/-- C4 counterexample: at `v = ε + ε²`, `e = 0` the ratio is exactly
`1 + ε`, so `|ρ − 1| ≤ ε` holds, yet the code returns `Finfr`, not the
`Exact` demanded by the claim's `|ρ − 1| ≤ ε` case. -/
theorem fg_exact_boundary_counterexample :
    0 ≤ (1e-10 + 1e-20 : ℝ) ∧ 0 ≤ (0 : ℝ) ∧
    |safe_divide (1e-10 + 1e-20) 0 - 1| ≤ EPSILON ∧
    FGState.from_violation (1e-10 + 1e-20) 0 ≠ FGState.Exact := by
  have hdiv : safe_divide (1e-10 + 1e-20 : ℝ) 0 = 1 + 1e-10 := by
    unfold safe_divide EPSILON
    norm_num
  refine ⟨by norm_num, le_refl 0, ?_, ?_⟩
  · rw [hdiv]
    unfold EPSILON
    rw [show (1 : ℝ) + 1e-10 - 1 = 1e-10 by ring, abs_of_nonneg (by norm_num)]
  · unfold FGState.from_violation
    rw [hdiv]
    unfold EPSILON
    rw [if_neg (by norm_num), if_neg (by norm_num), if_neg (by norm_num)]
    simp

/-- C4 (amended): with `ρ = safe_divide v e = v/(e+ε)`, the code returns
`Valid` when `ρ < ε`; `Slack (1−ρ)` when `ε ≤ ρ < 1−ε`; `Exact` when
`1−ε ≤ ρ < 1+ε`; and `Finfr (ρ−1)` when `ρ ≥ 1+ε` (the claim's `Exact`
case wrongly includes `ρ = 1+ε`, and its `Finfr` case wrongly excludes it). -/
theorem fg_from_violation_spec (v e : ℝ) (hv : 0 ≤ v) (he : 0 ≤ e) :
    (safe_divide v e < EPSILON → FGState.from_violation v e = .Valid) ∧
    (EPSILON ≤ safe_divide v e → safe_divide v e < 1 - EPSILON →
      FGState.from_violation v e = .Slack (1 - safe_divide v e)) ∧
    (1 - EPSILON ≤ safe_divide v e → safe_divide v e < 1 + EPSILON →
      FGState.from_violation v e = .Exact) ∧
    (1 + EPSILON ≤ safe_divide v e →
      FGState.from_violation v e = .Finfr (safe_divide v e - 1)) := by
  have hEpos := EPSILON_pos
  have hEsmall : EPSILON + EPSILON ≤ 1 := by norm_num [EPSILON]
  unfold FGState.from_violation
  refine ⟨fun h1 => ?_, fun h1 h2 => ?_, fun h1 h2 => ?_, fun h1 => ?_⟩
  · rw [if_pos h1]
  · rw [if_neg (not_lt.mpr h1), if_pos h2]
  · rw [if_neg (by linarith), if_neg (not_lt.mpr h1), if_pos h2]
  · rw [if_neg (by linarith), if_neg (by linarith), if_neg (not_lt.mpr h1)]

/-- C4 witness: `v = 3`, `e = 10` lands in the `Slack` case. -/
theorem fg_from_violation_spec_witness :
    FGState.from_violation 3 10 = .Slack (1 - safe_divide 3 10) :=
  (fg_from_violation_spec 3 10 (by norm_num) (by norm_num)).2.1
    (by unfold safe_divide EPSILON; rw [le_div_iff₀ (by norm_num)]; norm_num)
    (by unfold safe_divide EPSILON; rw [div_lt_iff₀ (by norm_num)]; norm_num)

/-! ## C7: degenerate halfspace `satisfied` -/

/-- C7 counterexample: for the degenerate normal `[0]` and bound
`b = −5·10⁻¹¹ < 0`, `satisfied` returns `true` (the code tests
`b ≥ −ε`, not `b ≥ 0` as the claim states). -/
theorem degenerate_satisfied_counterexample :
    norm_squared [(0 : ℝ)] < EPSILON ∧
    Constraint.satisfied c7_constraint [(7 : ℝ)] = true ∧
    ¬((-(5e-11) : ℝ) ≥ 0) := by
  refine ⟨by norm_num [norm_squared, EPSILON], ?_, by norm_num⟩
  have h0 : norm_squared [(0 : ℝ)] = 0 := by simp [norm_squared]
  have h : is_near_zero (norm_squared [(0 : ℝ)]) = true := by
    rw [h0]
    simp [is_near_zero, EPSILON]
    norm_num
  simp only [c7_constraint, Constraint.satisfied, h, if_true, decide_eq_true_eq, ge_iff_le,
    EPSILON]
  norm_num

/-- C7 (amended): for a degenerate halfspace (`‖a‖² < ε`), `satisfied`
does not depend on the point, and it is `true` exactly when the bound is
at least `−ε` (the claim's threshold `b ≥ 0` is off by the tolerance). -/
theorem degenerate_satisfied_spec (a : Vector) (b : ℝ) (p q : Vector)
    (hdeg : norm_squared a < EPSILON) :
    Constraint.satisfied (.linear a b) p = Constraint.satisfied (.linear a b) q ∧
    (Constraint.satisfied (.linear a b) p = true ↔ -EPSILON ≤ b) := by
  have habs : |norm_squared a| = norm_squared a := abs_of_nonneg (norm_squared_nonneg a)
  unfold Constraint.satisfied is_near_zero
  simp only [habs, decide_eq_true_eq]
  rw [if_pos hdeg, if_pos hdeg]
  simp [ge_iff_le]

/-- C7 witness: the amended characterisation at `a = [0]`, `b = 1`. -/
theorem degenerate_satisfied_spec_witness :
    Constraint.satisfied (.linear [(0 : ℝ)] 1) [(5 : ℝ)] =
      Constraint.satisfied (.linear [(0 : ℝ)] 1) [(6 : ℝ)] ∧
    (Constraint.satisfied (.linear [(0 : ℝ)] 1) [(5 : ℝ)] = true ↔
      -EPSILON ≤ (1 : ℝ)) :=
  degenerate_satisfied_spec [(0 : ℝ)] 1 [(5 : ℝ)] [(6 : ℝ)]
    (by norm_num [norm_squared, EPSILON])

/-! ## C2: Dykstra iteration cap and the non-convergence path -/

theorem dykstraLoop_iterations_le (cs : List Constraint) :
    ∀ (fuel : ℕ) (x : Vector) (y : List Vector) (i : ℕ) (fc : ℝ),
      (dykstraLoop cs fuel x y i fc).iterations ≤ i + fuel := by
  intro fuel
  induction fuel with
  | zero => intro x y i fc; simp [dykstraLoop]
  | succ n ih =>
    intro x y i fc
    simp only [dykstraLoop]
    split_ifs with h
    · simp
    · exact le_trans (ih _ _ (i + 1) _) (by omega)

theorem dykstraLoop_exhaust (cs : List Constraint) :
    ∀ (fuel : ℕ) (s : Vector × List Vector) (i : ℕ) (fc : ℝ),
      (∀ k < fuel, TOLERANCE ≤ distance ((sweepFun cs)^[k + 1] s).1 ((sweepFun cs)^[k] s).1) →
      (dykstraLoop cs fuel s.1 s.2 i fc).point = ((sweepFun cs)^[fuel] s).1 ∧
      (dykstraLoop cs fuel s.1 s.2 i fc).iterations = i + fuel ∧
      (dykstraLoop cs fuel s.1 s.2 i fc).converged = false := by
  intro fuel
  induction fuel with
  | zero => intro s i fc _; simp [dykstraLoop]
  | succ n ih =>
    intro s i fc h
    have h0 : TOLERANCE ≤ distance (sweepFun cs s).1 s.1 := by
      have := h 0 (by omega)
      simpa using this
    have hs : dykstraSweep cs s.1 s.2 = sweepFun cs s := rfl
    simp only [dykstraLoop, hs]
    rw [if_neg (not_lt.mpr h0)]
    have hshift : ∀ k < n,
        TOLERANCE ≤ distance ((sweepFun cs)^[k + 1] (sweepFun cs s)).1
          ((sweepFun cs)^[k] (sweepFun cs s)).1 := by
      intro k hk
      have := h (k + 1) (by omega)
      rwa [Function.iterate_succ_apply (sweepFun cs) (k + 1) s,
        Function.iterate_succ_apply (sweepFun cs) k s] at this
    obtain ⟨hp, hi, hc⟩ := ih (sweepFun cs s) (i + 1) (distance (sweepFun cs s).1 s.1) hshift
    refine ⟨?_, ?_, hc⟩
    · rw [hp, ← Function.iterate_succ_apply]
    · rw [hi]; omega

/-- C2: Dykstra's `project_convex_internal` performs at most
`MAX_ITERATIONS = 100` sweeps for every input point and convex constraint
list; and when the change between successive iterates never drops below
`TOLERANCE` within that cap, it returns the last iterate (the state after
100 sweeps) with `converged = false` rather than signalling an error. -/
theorem dykstra_iteration_cap (p : Vector) (cs : List Constraint)
    (hconvex : all_convex cs = true) :
    (project_convex_internal p cs).iterations ≤ MAX_ITERATIONS ∧
    (all_satisfied cs p = false →
      (∀ k < MAX_ITERATIONS,
        TOLERANCE ≤ distance (dykstraIter cs p (k + 1)).1 (dykstraIter cs p k).1) →
      (project_convex_internal p cs).point = (dykstraIter cs p MAX_ITERATIONS).1 ∧
      (project_convex_internal p cs).iterations = MAX_ITERATIONS ∧
      (project_convex_internal p cs).converged = false) := by
  by_cases hemp : cs.isEmpty
  · have hnil : cs = [] := by rwa [List.isEmpty_iff] at hemp
    subst hnil
    refine ⟨by simp [project_convex_internal, MAX_ITERATIONS], ?_⟩
    intro hsat _
    simp [all_satisfied] at hsat
  · by_cases hsat : all_satisfied cs p
    · refine ⟨?_, ?_⟩
      · simp [project_convex_internal, hemp, hsat, MAX_ITERATIONS]
      · intro hfalse _
        rw [hsat] at hfalse
        exact absurd hfalse (by simp)
    · have hb : all_satisfied cs p = false := by
        cases hx : all_satisfied cs p
        · rfl
        · exact absurd hx hsat
      have hint : project_convex_internal p cs =
          dykstraLoop cs MAX_ITERATIONS p (List.replicate cs.length (zeros p.length)) 0 0 := by
        rw [project_convex_internal, if_neg (by simp [hemp]), if_neg (by simp [hb])]
      constructor
      · rw [hint]
        exact le_trans (dykstraLoop_iterations_le cs MAX_ITERATIONS p _ 0 0) (by omega)
      · intro _ hiter
        rw [hint]
        have := dykstraLoop_exhaust cs MAX_ITERATIONS
          (p, List.replicate cs.length (zeros p.length)) 0 0 hiter
        exact ⟨this.1, this.2.1, this.2.2⟩

/-- C2 witness: a convex singleton constraint list. -/
theorem dykstra_iteration_cap_witness :
    (project_convex_internal [(5 : ℝ)] [.linear [1] 0]).iterations ≤ MAX_ITERATIONS ∧
    (all_satisfied [.linear [1] 0] [(5 : ℝ)] = false →
      (∀ k < MAX_ITERATIONS,
        TOLERANCE ≤ distance (dykstraIter [.linear [1] 0] [(5 : ℝ)] (k + 1)).1
          (dykstraIter [.linear [1] 0] [(5 : ℝ)] k).1) →
      (project_convex_internal [(5 : ℝ)] [.linear [1] 0]).point =
        (dykstraIter [.linear [1] 0] [(5 : ℝ)] MAX_ITERATIONS).1 ∧
      (project_convex_internal [(5 : ℝ)] [.linear [1] 0]).iterations = MAX_ITERATIONS ∧
      (project_convex_internal [(5 : ℝ)] [.linear [1] 0]).converged = false) :=
  dykstra_iteration_cap [(5 : ℝ)] [.linear [1] 0] rfl

/-! ## C10: project_convex_with_history versus project_convex -/

theorem historyLoop_point_eq (cs : List Constraint) :
    ∀ (fuel : ℕ) (x : Vector) (y : List Vector) (i j : ℕ) (fc : ℝ) (hist : List Vector),
      (historyLoop cs fuel x y i hist).1 = (dykstraLoop cs fuel x y j fc).point := by
  intro fuel
  induction fuel with
  | zero => intros; simp [historyLoop, dykstraLoop]
  | succ n ih =>
    intro x y i j fc hist
    simp only [historyLoop, dykstraLoop]
    split_ifs with h
    · rfl
    · exact ih _ _ (i + 1) (j + 1) _ _

/-- C10 (amended): on every input that is empty-constrained or violates
some constraint, the debug entry `project_convex_with_history` returns the
same projected point as `project_convex`; on an input that already
satisfies every constraint (within the `EPSILON` slack of `satisfied`),
`project_convex` returns the point untouched while the history variant
still applies one sweep of projections, which can move the point. -/
theorem with_history_point_eq (p : Vector) (cs : List Constraint)
    (hconvex : all_convex cs = true)
    (h : cs = [] ∨ all_satisfied cs p = false) :
    (project_convex_with_history p cs).1 = project_convex p cs := by
  rcases h with h | h
  · subst h
    simp [project_convex_with_history, project_convex, project_convex_internal]
  · have hne : cs ≠ [] := by
      intro he
      rw [he] at h
      simp [all_satisfied] at h
    have hemp : ¬(cs.isEmpty = true) := by simp [List.isEmpty_iff, hne]
    rw [project_convex_with_history, if_neg hemp, project_convex,
      project_convex_internal, if_neg hemp, if_neg (by simp [h])]
    exact historyLoop_point_eq cs MAX_ITERATIONS p _ 0 0 0 [p]

/-- C10 witness: the box `[0, 1]` with the violating input `[5]`. -/
theorem with_history_point_eq_witness :
    (project_convex_with_history [(5 : ℝ)] [.boxBounds [0] [1] false]).1 =
      project_convex [(5 : ℝ)] [.boxBounds [0] [1] false] :=
  with_history_point_eq [(5 : ℝ)] [.boxBounds [0] [1] false] rfl
    (Or.inr (by
      simp only [all_satisfied, Constraint.satisfied, List.all_cons, List.all_nil,
        Bool.and_true, List.length_cons, List.length_nil]
      rw [show List.range 1 = [0] from rfl]
      simp only [List.all_cons, List.all_nil, Bool.and_true, List.getD_cons_zero,
        Bool.or_eq_false_iff, Bool.not_eq_true', decide_eq_false_iff_not, not_lt, EPSILON,
        Bool.not_or, Bool.not_eq_true]
      norm_num))

theorem historyLoop_converge_step (cs : List Constraint) (fuel : ℕ) (x : Vector)
    (y : List Vector) (i : ℕ) (hist : List Vector)
    (h : distance (dykstraSweep cs x y).1 x < TOLERANCE) :
    historyLoop cs (fuel + 1) x y i hist =
      ((dykstraSweep cs x y).1, i + 1, hist ++ [(dykstraSweep cs x y).1]) := by
  simp only [historyLoop]
  rw [if_pos h]

/-- C10 counterexample: the point `[-5e-11]` satisfies the box `[0, 1]`
within the `EPSILON` slack, so `project_convex` returns it unchanged
(`iterations = 0` early exit), while `project_convex_with_history` runs a
sweep that clamps it to `[0]`: the two entry points return different
points on this input. -/
theorem with_history_point_counterexample :
    (project_convex_with_history c10_point [c10_box]).1 ≠ project_convex c10_point [c10_box] := by
  have hr1 : List.range 1 = [0] := rfl
  have hsat : all_satisfied [c10_box] c10_point = true := by
    simp only [all_satisfied, c10_box, c10_point, Constraint.satisfied, List.all_cons,
      List.all_nil, Bool.and_true]
    simp only [List.length_cons, List.length_nil, hr1, List.all_cons, List.all_nil,
      Bool.and_true]
    simp only [List.getD_cons_zero, Bool.or_eq_false_iff, Bool.not_eq_true',
      decide_eq_false_iff_not, not_lt, EPSILON]
    norm_num
  have hpc : project_convex c10_point [c10_box] = c10_point := by
    rw [project_convex, project_convex_internal, if_neg (by simp), if_pos hsat]
  have hswept : dykstraSweep [c10_box] c10_point [[(0 : ℝ)]] =
      ([(0 : ℝ)], [[(-(5e-11) : ℝ)]]) := by
    simp only [dykstraSweep, c10_point, c10_box, vadd, List.zipWith, Constraint.project,
      boxProject, List.length_cons, List.length_nil, hr1, List.foldl,
      List.getD_cons_zero, List.set, clampScalar, vsub]
    norm_num
  have hchange : distance [(0 : ℝ)] c10_point < TOLERANCE := by
    have hv : vsub [(0 : ℝ)] c10_point = [(5e-11 : ℝ)] := by
      simp [vsub, c10_point, List.zipWith]
    rw [distance, hv, norm]
    rw [Real.sqrt_lt' TOLERANCE_pos]
    simp only [norm_squared, List.map, List.sum_cons, List.sum_nil, TOLERANCE]
    norm_num
  have hcond : distance (dykstraSweep [c10_box] c10_point [[(0 : ℝ)]]).1 c10_point
      < TOLERANCE := by
    rw [hswept]
    exact hchange
  have hwh : (project_convex_with_history c10_point [c10_box]).1 = [(0 : ℝ)] := by
    rw [project_convex_with_history, if_neg (by simp)]
    rw [show List.replicate (List.length ([c10_box] : List Constraint))
        (zeros (List.length c10_point)) = [[(0 : ℝ)]] from by simp [zeros, c10_point]]
    rw [show MAX_ITERATIONS = 99 + 1 from rfl]
    rw [historyLoop_converge_step [c10_box] 99 c10_point [[(0 : ℝ)]] 0 [c10_point] hcond]
    simp [hswept]
  rw [hwh, hpc]
  intro hEq
  have : (0 : ℝ) = -(5e-11) := by
    have := congrArg (fun l => List.getD l 0 0) hEq
    simpa [c10_point] using this
  norm_num at this

/-! ## C6: box projection is order-independent -/

theorem getD_of_lt (l : List ℝ) (j : ℕ) (h : j < l.length) : l.getD j 0 = l[j] := by
  simp [List.getD_eq_getElem?_getD, List.getElem?_eq_getElem h]

theorem boxFoldl_length (mn mx : Vector) : ∀ (idxs : List ℕ) (p : Vector),
    (idxs.foldl
      (fun r i => r.set i (clampScalar (r.getD i 0) (mn.getD i 0) (mx.getD i 0))) p).length
      = p.length := by
  intro idxs
  induction idxs with
  | nil => intro p; rfl
  | cons i rest ih =>
    intro p
    rw [List.foldl_cons, ih]
    exact List.length_set p i _

theorem boxFoldl_getD (mn mx : Vector) : ∀ (idxs : List ℕ) (p : Vector), idxs.Nodup →
    ∀ j : ℕ, j < p.length →
      (idxs.foldl
        (fun r i => r.set i (clampScalar (r.getD i 0) (mn.getD i 0) (mx.getD i 0))) p).getD j 0 =
      if j ∈ idxs then clampScalar (p.getD j 0) (mn.getD j 0) (mx.getD j 0)
      else p.getD j 0 := by
  intro idxs
  induction idxs with
  | nil =>
    intro p _ j hj
    simp
  | cons i rest ih =>
    intro p hnd j hj
    have hndr : rest.Nodup := hnd.of_cons
    have hir : i ∉ rest := by
      rw [List.nodup_cons] at hnd
      exact hnd.1
    rw [List.foldl_cons]
    have hj' : j < (p.set i (clampScalar (p.getD i 0) (mn.getD i 0) (mx.getD i 0))).length := by
      rwa [List.length_set]
    rw [ih (p.set i (clampScalar (p.getD i 0) (mn.getD i 0) (mx.getD i 0))) hndr j hj']
    by_cases hji : j = i
    · subst hji
      rw [if_neg (fun hmem => hir hmem), if_pos (List.mem_cons_self j rest)]
      simp only [List.getD_eq_getElem?_getD, List.getElem?_set_self hj]
      simp
    · have hset_getD : (p.set i (clampScalar (p.getD i 0) (mn.getD i 0) (mx.getD i 0))).getD j 0
          = p.getD j 0 := by
        simp only [List.getD_eq_getElem?_getD]
        rw [List.getElem?_set_ne (fun h => hji h.symm)]
      by_cases hjr : j ∈ rest
      · rw [if_pos hjr, if_pos (List.mem_cons_of_mem i hjr), hset_getD]
      · rw [if_neg hjr, if_neg (by
          intro hmem
          rcases List.mem_cons.mp hmem with h | h
          · exact hji h
          · exact hjr h)]
        exact hset_getD

/-- C6: projecting with a forward-ordered `BoxBounds` and with the
test-only reverse-ordered `BoxBounds` built from the same `min`/`max`
yields identical results for every point and valid box: the independent
per-dimension clamps commute, so traversal order does not matter. -/
theorem box_project_order_independence (mn mx p : Vector)
    (hmm : mn.length = mx.length) (hp : p.length = mn.length)
    (hvalid : ∀ i < mn.length, mn.getD i 0 ≤ mx.getD i 0) :
    boxProject mn mx true p = boxProject mn mx false p := by
  rw [boxProject, boxProject, if_pos rfl, if_neg (by simp)]
  apply List.ext_getElem
  · rw [boxFoldl_length, boxFoldl_length]
  · intro j hj1 hj2
    have hjp : j < p.length := by
      have := hj1
      rwa [boxFoldl_length] at this
    have e1 := getD_of_lt _ j hj1
    have e2 := getD_of_lt _ j hj2
    rw [← e1, ← e2,
      boxFoldl_getD mn mx _ p (List.nodup_reverse.mpr (List.nodup_range _)) j hjp,
      boxFoldl_getD mn mx _ p (List.nodup_range _) j hjp]
    by_cases hmem : j ∈ List.range mn.length
    · rw [if_pos (List.mem_reverse.mpr hmem), if_pos hmem]
    · rw [if_neg (fun h => hmem (List.mem_reverse.mp h)), if_neg hmem]

/-- C6 witness: the box `[0,10] × [0,10]` at the outside point `(15, -3)`. -/
theorem box_project_order_independence_witness :
    boxProject [(0 : ℝ), 0] [(10 : ℝ), 10] true [(15 : ℝ), -3] =
      boxProject [(0 : ℝ), 0] [(10 : ℝ), 10] false [(15 : ℝ), -3] :=
  box_project_order_independence [(0 : ℝ), 0] [(10 : ℝ), 10] [(15 : ℝ), -3]
    (by simp) (by simp)
    (by
      intro i hi
      have hi2 : i < 2 := by simpa using hi
      interval_cases i <;> simp [List.getD])

/-! ## C5: the intent-preservation score -/

theorem norm_squared_cons (x : ℝ) (v : Vector) :
    norm_squared (x :: v) = x * x + norm_squared v := by
  simp [norm_squared]

theorem dot_cons (x y : ℝ) (a b : Vector) :
    dot (x :: a) (y :: b) = x * y + dot a b := by
  simp [dot]

theorem cauchy_schwarz_step (x y S A B : ℝ) (hA : 0 ≤ A) (hB : 0 ≤ B)
    (hS : S ^ 2 ≤ A * B) : (x * y + S) ^ 2 ≤ (x * x + A) * (y * y + B) := by
  rcases eq_or_lt_of_le hB with hB0 | hBpos
  · have hS0 : S = 0 := by nlinarith
    subst hS0
    nlinarith [sq_nonneg y, sq_nonneg x, mul_nonneg hA (sq_nonneg y)]
  · nlinarith [sq_nonneg (x * B - y * S), mul_pos hBpos hBpos, sq_nonneg S,
      mul_nonneg hA hB, sq_nonneg (x * y)]

/-- Discrete Cauchy–Schwarz for the embedded dot product. -/
theorem dot_sq_le (a : Vector) : ∀ b : Vector,
    (dot a b) ^ 2 ≤ norm_squared a * norm_squared b := by
  induction a with
  | nil =>
    intro b
    simp [dot, norm_squared]
  | cons x as ih =>
    intro b
    cases b with
    | nil =>
      simp only [dot, List.zipWith, List.sum_nil, norm_squared, List.map_nil]
      nlinarith [norm_squared_nonneg (x :: as), sq_nonneg (0 : ℝ)]
    | cons y bs =>
      rw [dot_cons, norm_squared_cons, norm_squared_cons]
      exact cauchy_schwarz_step x y (dot as bs) (norm_squared as) (norm_squared bs)
        (norm_squared_nonneg as) (norm_squared_nonneg bs) (ih bs)

theorem dot_vdiv (a : Vector) : ∀ (v : Vector) (c : ℝ),
    dot a (vdiv v c) = dot a v / c := by
  induction a with
  | nil => intro v c; simp [dot, vdiv]
  | cons x as ih =>
    intro v c
    cases v with
    | nil => simp [dot, vdiv]
    | cons y bs =>
      simp only [vdiv, List.map_cons]
      rw [dot_cons, dot_cons, ← vdiv, ih bs c, add_div, mul_div_assoc]

theorem norm_squared_vdiv (v : Vector) (c : ℝ) :
    norm_squared (vdiv v c) = norm_squared v / (c * c) := by
  induction v with
  | nil => simp [norm_squared, vdiv]
  | cons x xs ih =>
    simp only [vdiv, List.map_cons, norm_squared_cons] at ih ⊢
    rw [ih, add_div, div_mul_div_comm]

/-- C5: `preserved` returns `1` when the intent magnitude is below `ε`,
`0` when the achieved change is below `ε`, and otherwise
`max 0 ((d̂·Δ/‖Δ‖) · min (‖Δ‖/m, 1))`; and whenever the stored direction
has norm at most one (every constructed intent does), the score lies in
`[0, 1]`. -/
theorem intent_preserved_spec (i : IntentVector) (o r : Vector) :
    (i.magnitude < EPSILON → i.preserved o r = 1) ∧
    (EPSILON ≤ i.magnitude → norm (vsub r o) < EPSILON → i.preserved o r = 0) ∧
    (EPSILON ≤ i.magnitude → EPSILON ≤ norm (vsub r o) →
      i.preserved o r =
        max 0 ((dot i.direction (vsub r o) / norm (vsub r o)) *
          min (norm (vsub r o) / i.magnitude) 1)) ∧
    (norm_squared i.direction ≤ 1 → 0 ≤ i.preserved o r ∧ i.preserved o r ≤ 1) := by
  have hEpos := EPSILON_pos
  refine ⟨?_, ?_, ?_, ?_⟩
  · intro h
    rw [IntentVector.preserved, if_pos h]
  · intro h1 h2
    rw [IntentVector.preserved, if_neg (not_lt.mpr h1)]
    simp only
    rw [if_pos h2]
  · intro h1 h2
    rw [IntentVector.preserved, if_neg (not_lt.mpr h1)]
    simp only
    rw [if_neg (not_lt.mpr h2)]
    rw [normalize, if_neg (not_lt.mpr h2), dot_vdiv]
    rw [max_comm]
  · intro hdir
    simp only [IntentVector.preserved]
    split_ifs with h1 h2
    · norm_num
    · norm_num
    · have hn : EPSILON ≤ norm (vsub r o) := not_lt.mp h2
      have hm : EPSILON ≤ i.magnitude := not_lt.mp h1
      have hnpos : 0 < norm (vsub r o) := lt_of_lt_of_le hEpos hn
      have hmpos : 0 < i.magnitude := lt_of_lt_of_le hEpos hm
      set al := dot i.direction (normalize (vsub r o)) with hal
      set ratio := min (norm (vsub r o) / i.magnitude) 1 with hratio
      have hratio0 : 0 ≤ ratio := le_min (by positivity) (by norm_num)
      have hratio1 : ratio ≤ 1 := min_le_right _ _
      constructor
      · exact le_max_right _ _
      · have hsq : al ^ 2 ≤ 1 := by
          rw [hal, normalize, if_neg (not_lt.mpr hn)]
          have hcs := dot_sq_le i.direction (vdiv (vsub r o) (norm (vsub r o)))
          rw [norm_squared_vdiv] at hcs
          have hnn : norm (vsub r o) * norm (vsub r o) = norm_squared (vsub r o) :=
            Real.mul_self_sqrt (norm_squared_nonneg (vsub r o))
          rw [hnn] at hcs
          have hnsq_pos : 0 < norm_squared (vsub r o) := by
            rw [← hnn]
            exact mul_pos hnpos hnpos
          rw [div_self (ne_of_gt hnsq_pos), mul_one] at hcs
          exact le_trans hcs hdir
        have hal1 : al ≤ 1 := by nlinarith [hsq, sq_nonneg (al - 1)]
        rcases le_or_lt al 0 with hneg | hpos
        · have : al * ratio ≤ 0 := mul_nonpos_of_nonpos_of_nonneg hneg hratio0
          exact max_le (le_trans this (by norm_num)) (by norm_num)
        · have : al * ratio ≤ 1 := by
            calc al * ratio ≤ 1 * 1 :=
              mul_le_mul hal1 hratio1 hratio0 (by norm_num)
            _ = 1 := by norm_num
          exact max_le this (by norm_num)

/-- C5 witness: the unit intent `⟨[1], 1, [1]⟩` with original `[0]` and
result `[7]`. -/
theorem intent_preserved_spec_witness :
    0 ≤ IntentVector.preserved ⟨[1], 1, [1]⟩ [(0 : ℝ)] [(7 : ℝ)] ∧
    IntentVector.preserved ⟨[1], 1, [1]⟩ [(0 : ℝ)] [(7 : ℝ)] ≤ 1 :=
  (intent_preserved_spec ⟨[1], 1, [1]⟩ [(0 : ℝ)] [(7 : ℝ)]).2.2.2
    (by norm_num [norm_squared])

/-! ## C8: rank_candidates scoring and ordering -/

theorem lex_gt_iff (a : Vector) : ∀ b : Vector,
    lexicographic_cmp a b = .gt ↔ lexicographic_cmp b a = .lt := by
  induction a with
  | nil =>
    intro b
    cases b with
    | nil => simp [lexicographic_cmp]
    | cons y bs => simp [lexicographic_cmp]
  | cons x as ih =>
    intro b
    cases b with
    | nil => simp [lexicographic_cmp]
    | cons y bs =>
      simp only [lexicographic_cmp]
      rcases lt_trichotomy x y with h | h | h
      · simp only [if_pos h, if_neg (not_lt.mpr (le_of_lt h))]
        simp
      · subst h
        simp only [if_neg (lt_irrefl x)]
        exact ih bs
      · simp only [if_neg (not_lt.mpr (le_of_lt h)), if_pos h]

theorem lex_le_total (a b : Vector) :
    lexicographic_cmp a b ≠ .gt ∨ lexicographic_cmp b a ≠ .gt := by
  by_cases h : lexicographic_cmp a b = .gt
  · right
    rw [(lex_gt_iff a b).mp h]
    simp
  · exact Or.inl h

theorem lex_le_trans (a : Vector) : ∀ b c : Vector,
    lexicographic_cmp a b ≠ .gt → lexicographic_cmp b c ≠ .gt →
    lexicographic_cmp a c ≠ .gt := by
  induction a with
  | nil =>
    intro b c _ _
    cases c with
    | nil => simp [lexicographic_cmp]
    | cons z cs => simp [lexicographic_cmp]
  | cons x as ih =>
    intro b c h1 h2
    cases b with
    | nil =>
      exact absurd rfl h1
    | cons y bs =>
      cases c with
      | nil =>
        exact absurd rfl h2
      | cons z cs =>
        simp only [lexicographic_cmp] at h1 h2 ⊢
        by_cases hxy : x < y
        · by_cases hyz : y < z
          · rw [if_pos (lt_trans hxy hyz)]
            simp
          · by_cases hzy : z < y
            · rw [if_neg hyz, if_pos hzy] at h2
              exact absurd rfl h2
            · have hyz' : y = z := le_antisymm (not_lt.mp hzy) (not_lt.mp hyz)
              subst hyz'
              rw [if_pos hxy]
              simp
        · by_cases hyx : y < x
          · rw [if_neg hxy, if_pos hyx] at h1
            exact absurd rfl h1
          · have hxy' : x = y := le_antisymm (not_lt.mp hyx) (not_lt.mp hxy)
            subst hxy'
            simp only [if_neg (lt_irrefl x)] at h1
            by_cases hyz : x < z
            · rw [if_pos hyz]
              simp
            · by_cases hzy : z < x
              · rw [if_neg hyz, if_pos hzy] at h2
                exact absurd rfl h2
              · have hyz' : x = z := le_antisymm (not_lt.mp hzy) (not_lt.mp hyz)
                subst hyz'
                simp only [if_neg (lt_irrefl x)] at h2 ⊢
                exact ih bs cs h1 h2

/-- The Prop reading of the ranking comparator's non-strict order. -/
theorem scoredCmp_ne_gt_iff (a b : ScoredCandidate) :
    ((scoredCmp a b != Ordering.gt) = true) ↔
      (a.score < b.score ∨
        (a.score = b.score ∧ lexicographic_cmp a.point b.point ≠ .gt)) := by
  rw [show ∀ o : Ordering, ((o != Ordering.gt) = true) ↔ o ≠ Ordering.gt from fun o => by
    cases o <;> simp <;> rfl]
  unfold scoredCmp
  rcases lt_trichotomy a.score b.score with h | h | h
  · rw [if_pos h]
    simp [h]
  · rw [if_neg (by rw [h]; exact lt_irrefl _), if_neg (by rw [h]; exact lt_irrefl _)]
    constructor
    · intro hlex
      exact Or.inr ⟨h, hlex⟩
    · rintro (hlt | ⟨_, hlex⟩)
      · exact absurd h (ne_of_lt hlt)
      · exact hlex
  · rw [if_neg (not_lt.mpr (le_of_lt h)), if_pos h]
    constructor
    · intro hgt
      exact absurd rfl hgt
    · rintro (hlt | ⟨heq, _⟩)
      · exact absurd hlt (not_lt.mpr (le_of_lt h))
      · exact absurd heq (ne_of_gt h)

/-- C8 (amended): with the default criteria, `rank_candidates` scores each
candidate as `1.0·intent_distance + 0.5·margin + 0.3·stability_distance`
where the `margin` component is always `0`, returns a permutation of the
scored candidates sorted ascending by score — but the lexicographic
tiebreak applies only to *exactly equal* scores; scores that differ by
less than `TOLERANCE` are still ordered by score, contrary to the claim's
`|Δscore| < τ` tie rule. -/
theorem rank_candidates_spec (cands : List Vector) (intent : IntentVector)
    (original : Vector) :
    (∀ sc ∈ rank_candidates cands intent original RankingCriteria.default,
      sc.components.margin = 0 ∧
      sc.components.intent_distance = distance sc.point (vadd original intent.vector) ∧
      sc.components.stability_distance = distance sc.point original ∧
      sc.score = 1.0 * sc.components.intent_distance + 0.5 * sc.components.margin
        + 0.3 * sc.components.stability_distance) ∧
    List.Perm ((rank_candidates cands intent original RankingCriteria.default).map
      (fun sc => sc.point)) cands ∧
    List.Pairwise
      (fun a b : ScoredCandidate =>
        a.score < b.score ∨
          (a.score = b.score ∧ lexicographic_cmp a.point b.point ≠ .gt))
      (rank_candidates cands intent original RankingCriteria.default) := by
  refine ⟨?_, ?_, ?_⟩
  · intro sc hsc
    unfold rank_candidates at hsc
    rw [List.mem_mergeSort, List.mem_map] at hsc
    obtain ⟨pt, _, rfl⟩ := hsc
    refine ⟨rfl, rfl, rfl, ?_⟩
    show (RankingCriteria.default.intent_weight * distance pt (vadd original intent.vector)
      + RankingCriteria.default.stability_weight * distance pt original) = _
    unfold RankingCriteria.default
    ring
  · unfold rank_candidates
    have hperm := List.mergeSort_perm
      (cands.map fun point =>
        ({ point := point
           score := RankingCriteria.default.intent_weight *
               distance point (vadd original intent.vector)
             + RankingCriteria.default.stability_weight * distance point original
           components :=
            { intent_distance := distance point (vadd original intent.vector)
              margin := 0
              stability_distance := distance point original } } : ScoredCandidate))
      (fun a b => scoredCmp a b != Ordering.gt)
    have hmap := hperm.map (fun sc : ScoredCandidate => sc.point)
    rw [List.map_map] at hmap
    have hcomp : List.map
        ((fun sc : ScoredCandidate => sc.point) ∘ fun point =>
          ({ point := point
             score := RankingCriteria.default.intent_weight *
                 distance point (vadd original intent.vector)
               + RankingCriteria.default.stability_weight * distance point original
             components :=
              { intent_distance := distance point (vadd original intent.vector)
                margin := 0
                stability_distance := distance point original } } : ScoredCandidate))
        cands = cands := by
      rw [show ((fun sc : ScoredCandidate => sc.point) ∘ fun point =>
        ({ point := point
           score := RankingCriteria.default.intent_weight *
               distance point (vadd original intent.vector)
             + RankingCriteria.default.stability_weight * distance point original
           components :=
            { intent_distance := distance point (vadd original intent.vector)
              margin := 0
              stability_distance := distance point original } } : ScoredCandidate)) =
        fun pt : Vector => pt from rfl]
      exact List.map_id cands
    rw [hcomp] at hmap
    exact hmap
  · unfold rank_candidates
    have hsorted := @List.sorted_mergeSort ScoredCandidate
      (fun a b : ScoredCandidate => scoredCmp a b != Ordering.gt)
      (fun a b c hab hbc => by
        have hab2 : (scoredCmp a b != Ordering.gt) = true := hab
        have hbc2 : (scoredCmp b c != Ordering.gt) = true := hbc
        show (scoredCmp a c != Ordering.gt) = true
        rw [scoredCmp_ne_gt_iff] at hab2 hbc2 ⊢
        rcases hab2 with h1 | ⟨h1, hl1⟩
        · rcases hbc2 with h2 | ⟨h2, _⟩
          · exact Or.inl (lt_trans h1 h2)
          · exact Or.inl (h2 ▸ h1)
        · rcases hbc2 with h2 | ⟨h2, hl2⟩
          · exact Or.inl (h1 ▸ h2)
          · exact Or.inr ⟨h1.trans h2, lex_le_trans _ _ _ hl1 hl2⟩)
      (fun a b => by
        show ((scoredCmp a b != Ordering.gt) || (scoredCmp b a != Ordering.gt)) = true
        rcases lt_trichotomy a.score b.score with h | h | h
        · have hab : (scoredCmp a b != Ordering.gt) = true :=
            (scoredCmp_ne_gt_iff a b).mpr (Or.inl h)
          rw [hab]
          simp
        · rcases lex_le_total a.point b.point with hl | hl
          · have hab : (scoredCmp a b != Ordering.gt) = true :=
              (scoredCmp_ne_gt_iff a b).mpr (Or.inr ⟨h, hl⟩)
            rw [hab]
            simp
          · have hba : (scoredCmp b a != Ordering.gt) = true :=
              (scoredCmp_ne_gt_iff b a).mpr (Or.inr ⟨h.symm, hl⟩)
            rw [hba]
            simp
        · have hba : (scoredCmp b a != Ordering.gt) = true :=
            (scoredCmp_ne_gt_iff b a).mpr (Or.inl h)
          rw [hba]
          simp)
      (cands.map fun point =>
        ({ point := point
           score := RankingCriteria.default.intent_weight *
               distance point (vadd original intent.vector)
             + RankingCriteria.default.stability_weight * distance point original
           components :=
            { intent_distance := distance point (vadd original intent.vector)
              margin := 0
              stability_distance := distance point original } } : ScoredCandidate))
    refine hsorted.imp ?_
    intro a b hab
    exact (scoredCmp_ne_gt_iff a b).mp hab

/-- C8 witness: the amended ranking facts at one concrete candidate list. -/
theorem rank_candidates_spec_witness :
    (∀ sc ∈ rank_candidates [[(2 : ℝ)]] ⟨[1], 1, [1]⟩ [(0 : ℝ)] RankingCriteria.default,
      sc.components.margin = 0 ∧
      sc.components.intent_distance = distance sc.point (vadd [(0 : ℝ)]
        (IntentVector.vector ⟨[1], 1, [1]⟩)) ∧
      sc.components.stability_distance = distance sc.point [(0 : ℝ)] ∧
      sc.score = 1.0 * sc.components.intent_distance + 0.5 * sc.components.margin
        + 0.3 * sc.components.stability_distance) ∧
    List.Perm ((rank_candidates [[(2 : ℝ)]] ⟨[1], 1, [1]⟩ [(0 : ℝ)]
      RankingCriteria.default).map (fun sc => sc.point)) [[(2 : ℝ)]] ∧
    List.Pairwise
      (fun a b : ScoredCandidate =>
        a.score < b.score ∨
          (a.score = b.score ∧ lexicographic_cmp a.point b.point ≠ .gt))
      (rank_candidates [[(2 : ℝ)]] ⟨[1], 1, [1]⟩ [(0 : ℝ)] RankingCriteria.default) :=
  rank_candidates_spec [[(2 : ℝ)]] ⟨[1], 1, [1]⟩ [(0 : ℝ)]

/-- C8 counterexample: the zero intent `⟨[0], 0, [1]⟩` and original `[0]`
score `[1]` as `1.3` and `[-1 - 1e-9]` as `1.3·(1 + 1e-9)`.  The scores
differ by less than `TOLERANCE`, and `[-1 - 1e-9]` is lexicographically
smaller, so the claim's tie rule would put it first — but the code sorts
by score and returns `[1]` first. -/
theorem rank_tiebreak_counterexample :
    |(1.3 : ℝ) - 1.3 * (1 + 1e-9)| < TOLERANCE ∧
    lexicographic_cmp [(-1 - 1e-9 : ℝ)] [(1 : ℝ)] = .lt ∧
    (rank_candidates [[(1 : ℝ)], [(-1 - 1e-9 : ℝ)]] ⟨[0], 0, [1]⟩ [(0 : ℝ)]
      RankingCriteria.default).map (fun sc => sc.score) = [1.3, 1.3 * (1 + 1e-9)] ∧
    (rank_candidates [[(1 : ℝ)], [(-1 - 1e-9 : ℝ)]] ⟨[0], 0, [1]⟩ [(0 : ℝ)]
      RankingCriteria.default).map (fun sc => sc.point) = [[(1 : ℝ)], [(-1 - 1e-9 : ℝ)]] := by
  have hintended : vadd [(0 : ℝ)] (IntentVector.vector ⟨[0], 0, [1]⟩) = [(0 : ℝ)] := by
    simp [vadd, IntentVector.vector, smul]
  have hda : distance [(1 : ℝ)] [(0 : ℝ)] = 1 := by
    rw [distance, show vsub [(1 : ℝ)] [(0 : ℝ)] = [(1 : ℝ)] from by simp [vsub], norm,
      show norm_squared [(1 : ℝ)] = 1 from by simp [norm_squared]]
    exact Real.sqrt_one
  have hdb : distance [(-1 - 1e-9 : ℝ)] [(0 : ℝ)] = 1 + 1e-9 := by
    rw [distance, show vsub [(-1 - 1e-9 : ℝ)] [(0 : ℝ)] = [(-1 - 1e-9 : ℝ)] from by
      simp [vsub], norm,
      show norm_squared [(-1 - 1e-9 : ℝ)] = (1 + 1e-9) ^ 2 from by
        simp [norm_squared]; ring]
    exact Real.sqrt_sq (by norm_num)
  have hw : RankingCriteria.default.intent_weight = 1.0 ∧
      RankingCriteria.default.stability_weight = 0.3 := ⟨rfl, rfl⟩
  have hsa : (RankingCriteria.default.intent_weight * distance [(1 : ℝ)]
      (vadd [(0 : ℝ)] (IntentVector.vector ⟨[0], 0, [1]⟩))
      + RankingCriteria.default.stability_weight * distance [(1 : ℝ)] [(0 : ℝ)]) = 1.3 := by
    rw [hintended, hda, hw.1, hw.2]
    norm_num
  have hsb : (RankingCriteria.default.intent_weight * distance [(-1 - 1e-9 : ℝ)]
      (vadd [(0 : ℝ)] (IntentVector.vector ⟨[0], 0, [1]⟩))
      + RankingCriteria.default.stability_weight * distance [(-1 - 1e-9 : ℝ)] [(0 : ℝ)])
      = 1.3 * (1 + 1e-9) := by
    rw [hintended, hdb, hw.1, hw.2]
    norm_num
  refine ⟨by rw [abs_of_nonpos (by norm_num)]; norm_num [TOLERANCE], ?_, ?_, ?_⟩
  · simp only [lexicographic_cmp]
    rw [if_pos (by norm_num)]
  · unfold rank_candidates
    rw [List.mergeSort_of_sorted ?hpair1]
    case hpair1 =>
      simp only [List.map_cons, List.map_nil]
      rw [List.pairwise_cons]
      refine ⟨?_, by simp⟩
      intro sc hsc
      rw [List.mem_singleton] at hsc
      subst hsc
      show (scoredCmp _ _ != Ordering.gt) = true
      rw [scoredCmp_ne_gt_iff]
      exact Or.inl (by
        show (RankingCriteria.default.intent_weight * distance [(1 : ℝ)]
            (vadd [(0 : ℝ)] (IntentVector.vector ⟨[0], 0, [1]⟩))
          + RankingCriteria.default.stability_weight * distance [(1 : ℝ)] [(0 : ℝ)]) <
          (RankingCriteria.default.intent_weight * distance [(-1 - 1e-9 : ℝ)]
            (vadd [(0 : ℝ)] (IntentVector.vector ⟨[0], 0, [1]⟩))
          + RankingCriteria.default.stability_weight * distance [(-1 - 1e-9 : ℝ)] [(0 : ℝ)])
        rw [hsa, hsb]
        norm_num)
    simp only [List.map_cons, List.map_nil]
    rw [show (RankingCriteria.default.intent_weight * distance [(1 : ℝ)]
        (vadd [(0 : ℝ)] (IntentVector.vector ⟨[0], 0, [1]⟩))
      + RankingCriteria.default.stability_weight * distance [(1 : ℝ)] [(0 : ℝ)]) = 1.3 from hsa]
    rw [show (RankingCriteria.default.intent_weight * distance [(-1 - 1e-9 : ℝ)]
        (vadd [(0 : ℝ)] (IntentVector.vector ⟨[0], 0, [1]⟩))
      + RankingCriteria.default.stability_weight * distance [(-1 - 1e-9 : ℝ)] [(0 : ℝ)])
      = 1.3 * (1 + 1e-9) from hsb]
  · unfold rank_candidates
    rw [List.mergeSort_of_sorted ?hpair2]
    case hpair2 =>
      simp only [List.map_cons, List.map_nil]
      rw [List.pairwise_cons]
      refine ⟨?_, by simp⟩
      intro sc hsc
      rw [List.mem_singleton] at hsc
      subst hsc
      show (scoredCmp _ _ != Ordering.gt) = true
      rw [scoredCmp_ne_gt_iff]
      exact Or.inl (by
        show (RankingCriteria.default.intent_weight * distance [(1 : ℝ)]
            (vadd [(0 : ℝ)] (IntentVector.vector ⟨[0], 0, [1]⟩))
          + RankingCriteria.default.stability_weight * distance [(1 : ℝ)] [(0 : ℝ)]) <
          (RankingCriteria.default.intent_weight * distance [(-1 - 1e-9 : ℝ)]
            (vadd [(0 : ℝ)] (IntentVector.vector ⟨[0], 0, [1]⟩))
          + RankingCriteria.default.stability_weight * distance [(-1 - 1e-9 : ℝ)] [(0 : ℝ)])
        rw [hsa, hsb]
        norm_num)
    simp

/-! ## C1: validity of returned suggestions -/

theorem boundsFilter_none : boundsFilter none = fun _ : Vector => true := by
  funext p
  rfl

theorem sortLex_pair_of_lt (x y : ℝ) (h : x < y) :
    sortLex [[x], [y]] = [[x], [y]] := by
  unfold sortLex
  apply List.mergeSort_of_sorted
  rw [List.pairwise_cons]
  refine ⟨?_, by simp⟩
  intro b hb
  rw [List.mem_singleton] at hb
  subst hb
  show (lexicographic_cmp [x] [y] != Ordering.gt) = true
  simp only [lexicographic_cmp]
  rw [if_pos h]
  rfl

theorem localSearchShells_cons (center : Vector) (bounds : Option Bounds) (quota : ℕ)
    (r : ℝ) (rs : List ℝ) (acc : List Vector) :
    localSearchShells center bounds quota (r :: rs) acc =
      (if quota ≤ (acc ++ (sortLex ((generate_shell_points center r center.length).filter
          (boundsFilter bounds))).take (quota - acc.length)).length
       then acc ++ (sortLex ((generate_shell_points center r center.length).filter
          (boundsFilter bounds))).take (quota - acc.length)
       else localSearchShells center bounds quota rs
         (acc ++ (sortLex ((generate_shell_points center r center.length).filter
            (boundsFilter bounds))).take (quota - acc.length))) := by
  simp only [localSearchShells]

theorem shell_1d_eval (r : ℝ) :
    generate_shell_points [(1 : ℝ)] r (List.length [(1 : ℝ)]) = [[1 - r], [1 + r]] := by
  rw [show List.length [(1 : ℝ)] = 1 from rfl]
  simp only [generate_shell_points, generate_shell_1d, List.getD_cons_zero]

theorem c1_sat (x : ℝ) (h1 : -1000 ≤ x) (h2 : x ≤ 1000) :
    Constraint.satisfied c1_constraint [x] = false := by
  simp only [c1_constraint, Constraint.satisfied, collisionEffective]
  rw [if_neg (by norm_num : ¬((0 : ℝ) > 0))]
  simp only [c1_obstacle, Bounds.contains, List.length_cons, List.length_nil]
  rw [show List.range (0 + 1) = [0] from rfl]
  simp only [List.all_cons, List.all_nil, Bool.and_true, List.getD_cons_zero]
  simp only [Bool.not_not, Bool.or_eq_false_iff, decide_eq_false_iff_not, not_lt,
    gt_iff_lt, EPSILON]
  constructor
  · linarith
  · linarith

/-- C1 failing input, evaluated: `suggest` at current `[0]`, delta `[1]`,
and the single collision constraint avoiding `[-1000, 1000]` returns the
convex-relaxation fallback suggestion at the intended point `[1]`, and
that state violates the collision constraint — the code's own validity
guarantee ("all returned suggestions satisfy all constraints") is broken
on the nonconvex fallback path. -/
theorem suggest_fallback_returns_invalid_state :
    (suggest c1_current c1_delta [c1_constraint]).suggestions.map Suggestion.state =
      [[(1 : ℝ)]] ∧
    Constraint.satisfied c1_constraint [(1 : ℝ)] = false := by
  have hsat1 : Constraint.satisfied c1_constraint [(1 : ℝ)] = false :=
    c1_sat 1 (by norm_num) (by norm_num)
  refine ⟨?_, hsat1⟩
  have hintended : vadd c1_current c1_delta.vector = [(1 : ℝ)] := by
    show vadd [(0 : ℝ)] [(1 : ℝ)] = [(1 : ℝ)]
    simp [vadd]
  have hv1 : sortLex ((generate_shell_points [(1 : ℝ)] 1 (List.length [(1 : ℝ)])).filter
      (boundsFilter none)) = [[(0 : ℝ)], [2]] := by
    rw [shell_1d_eval 1, boundsFilter_none, List.filter_true]
    rw [show ([[(1 : ℝ) - 1], [(1 : ℝ) + 1]] : List Vector) = [[(0 : ℝ)], [2]] from by
      norm_num]
    exact sortLex_pair_of_lt 0 2 (by norm_num)
  have hv2 : sortLex ((generate_shell_points [(1 : ℝ)] 2 (List.length [(1 : ℝ)])).filter
      (boundsFilter none)) = [[(-1 : ℝ)], [3]] := by
    rw [shell_1d_eval 2, boundsFilter_none, List.filter_true]
    rw [show ([[(1 : ℝ) - 2], [(1 : ℝ) + 2]] : List Vector) = [[(-1 : ℝ)], [3]] from by
      norm_num]
    exact sortLex_pair_of_lt (-1) 3 (by norm_num)
  have hv3 : sortLex ((generate_shell_points [(1 : ℝ)] 4 (List.length [(1 : ℝ)])).filter
      (boundsFilter none)) = [[(-3 : ℝ)], [5]] := by
    rw [shell_1d_eval 4, boundsFilter_none, List.filter_true]
    rw [show ([[(1 : ℝ) - 4], [(1 : ℝ) + 4]] : List Vector) = [[(-3 : ℝ)], [5]] from by
      norm_num]
    exact sortLex_pair_of_lt (-3) 5 (by norm_num)
  have hv4 : sortLex ((generate_shell_points [(1 : ℝ)] 8 (List.length [(1 : ℝ)])).filter
      (boundsFilter none)) = [[(-7 : ℝ)], [9]] := by
    rw [shell_1d_eval 8, boundsFilter_none, List.filter_true]
    rw [show ([[(1 : ℝ) - 8], [(1 : ℝ) + 8]] : List Vector) = [[(-7 : ℝ)], [9]] from by
      norm_num]
    exact sortLex_pair_of_lt (-7) 9 (by norm_num)
  have hv5 : sortLex ((generate_shell_points [(1 : ℝ)] 100 (List.length [(1 : ℝ)])).filter
      (boundsFilter none)) = [[(-99 : ℝ)], [101]] := by
    rw [shell_1d_eval 100, boundsFilter_none, List.filter_true]
    rw [show ([[(1 : ℝ) - 100], [(1 : ℝ) + 100]] : List Vector) = [[(-99 : ℝ)], [101]] from by
      norm_num]
    exact sortLex_pair_of_lt (-99) 101 (by norm_num)
  have hls : local_search [(1 : ℝ)] none 1 =
      [[(0 : ℝ)], [2], [-1], [3], [-3], [5], [-7], [9], [-99], [101]] := by
    rw [local_search]
    rw [show MAX_CANDIDATES - 1 = 23 from rfl]
    rw [if_neg (by norm_num)]
    rw [show SHELL_RADII = [(1 : ℝ), 2, 4, 8, 100] from by
      rw [SHELL_RADII, SEARCH_RADIUS]]
    rw [localSearchShells_cons, hv1]
    rw [show (([] : List Vector) ++ List.take (23 - List.length ([] : List Vector))
      [[(0 : ℝ)], [2]]) = [[(0 : ℝ)], [2]] from by
      rw [List.take_of_length_le (by simp)]
      simp]
    rw [if_neg (by simp)]
    rw [localSearchShells_cons, hv2]
    rw [show ([[(0 : ℝ)], [2]] ++ List.take (23 - List.length ([[(0 : ℝ)], [2]] : List Vector))
      [[(-1 : ℝ)], [3]]) = [[(0 : ℝ)], [2], [-1], [3]] from by
      rw [List.take_of_length_le (by simp)]
      simp]
    rw [if_neg (by simp)]
    rw [localSearchShells_cons, hv3]
    rw [show ([[(0 : ℝ)], [2], [-1], [3]] ++
      List.take (23 - List.length ([[(0 : ℝ)], [2], [-1], [3]] : List Vector))
      [[(-3 : ℝ)], [5]]) = [[(0 : ℝ)], [2], [-1], [3], [-3], [5]] from by
      rw [List.take_of_length_le (by simp)]
      simp]
    rw [if_neg (by simp)]
    rw [localSearchShells_cons, hv4]
    rw [show ([[(0 : ℝ)], [2], [-1], [3], [-3], [5]] ++
      List.take (23 - List.length ([[(0 : ℝ)], [2], [-1], [3], [-3], [5]] : List Vector))
      [[(-7 : ℝ)], [9]]) = [[(0 : ℝ)], [2], [-1], [3], [-3], [5], [-7], [9]] from by
      rw [List.take_of_length_le (by simp)]
      simp]
    rw [if_neg (by simp)]
    rw [localSearchShells_cons, hv5]
    rw [show ([[(0 : ℝ)], [2], [-1], [3], [-3], [5], [-7], [9]] ++
      List.take (23 - List.length
        ([[(0 : ℝ)], [2], [-1], [3], [-3], [5], [-7], [9]] : List Vector))
      [[(-99 : ℝ)], [101]]) =
      [[(0 : ℝ)], [2], [-1], [3], [-3], [5], [-7], [9], [-99], [101]] from by
      rw [List.take_of_length_le (by simp)]
      simp]
    rw [if_neg (by simp)]
    rw [localSearchShells]
  have hfr : filter_and_rank
      ([(1 : ℝ)] :: [[(0 : ℝ)], [2], [-1], [3], [-3], [5], [-7], [9], [-99], [101]])
      [c1_constraint] [(1 : ℝ)] = [] := by
    unfold filter_and_rank
    rw [show (([(1 : ℝ)] :: [[(0 : ℝ)], [2], [-1], [3], [-3], [5], [-7], [9], [-99],
        [101]]).filter fun c => List.all [c1_constraint] fun con => con.satisfied c) =
        ([] : List Vector) from by
      rw [List.filter_eq_nil_iff]
      intro a ha
      fin_cases ha <;>
        simp only [List.all_cons, List.all_nil, Bool.and_true] <;>
        rw [c1_sat _ (by norm_num) (by norm_num)] <;>
        simp]
    exact List.mergeSort_nil
  have hcond1 : (List.isEmpty [c1_constraint] ||
      all_satisfied [c1_constraint] [(1 : ℝ)]) = false := by
    simp only [List.isEmpty_cons, Bool.false_or, all_satisfied, List.all_cons, List.all_nil,
      Bool.and_true]
    exact hsat1
  have hconv : all_convex [c1_constraint] = false := rfl
  rw [suggest]
  rw [hintended, hcond1, if_neg Bool.false_ne_true, hconv, if_neg Bool.false_ne_true]
  rw [suggest_nonconvex]
  rw [show (List.filter (fun c => c.is_convex) [c1_constraint]) = ([] : List Constraint)
    from rfl]
  rw [show (List.isEmpty ([] : List Constraint)) = true from rfl, if_pos rfl]
  rw [hls, hfr]
  rw [show (List.isEmpty ([] : List Vector)) = true from rfl, if_pos rfl]
  simp

/-! ## C9: suggest_weighted delegates to suggest -/

/-- C9: for every current state, delta, constraint list, and strictly
positive weight vector, `suggest_weighted` returns exactly the response of
`suggest` on the same current state, delta, and constraints: the weights
argument has no effect on the result. -/
theorem suggest_weighted_ignores_weights (current : Vector) (delta : Delta)
    (cs : List Constraint) (weights : Vector) (hw : ∀ w ∈ weights, 0 < w) :
    suggest_weighted current delta cs weights = suggest current delta cs := rfl

/-- C9 witness: concrete input with the strictly positive weight vector
`[1]`. -/
theorem suggest_weighted_ignores_weights_witness :
    suggest_weighted [(2 : ℝ)] ⟨[(3 : ℝ)]⟩ [] [(1 : ℝ)] = suggest [(2 : ℝ)] ⟨[(3 : ℝ)]⟩ [] :=
  suggest_weighted_ignores_weights [(2 : ℝ)] ⟨[(3 : ℝ)]⟩ [] [(1 : ℝ)]
    (by intro w hw; rw [List.mem_singleton] at hw; rw [hw]; norm_num)

end

end Newton
